import Mathlib

/-!
Verification of the integra eISCP client (message.go, integra.go).

Bytes are modelled as `Nat` (values < 256 where it matters, with explicit
`% 256` wherever Go's `byte` arithmetic can wrap).  A Go `[]byte` packet is a
`List Nat`.  A Go runtime panic (out-of-range index or slice) is modelled by
an `Option` result being `none`.
-/

set_option autoImplicit false
set_option linter.unusedVariables false

/-- Constants from message.go. -/
def headerSize : Nat := 16

def maxDataSize : Nat := 16

def packetSize : Nat := headerSize + maxDataSize

def headerSizeIndex : Nat := 7

def endOfPacketSize : Nat := 1

def dataStartSize : Nat := 2

def dataOverhead : Nat := dataStartSize + endOfPacketSize

def dataSizeIndex : Nat := 11

def maxMessageSize : Nat := maxDataSize - dataOverhead

def messageOffset : Nat := headerSize + dataStartSize

def endOfPacketTx : Nat := 0x0a

def endOfPacketRx : Nat := 0x1a

/-- `eISCPPacket` contains the bytes that make up a message sent to or
received from an Integra device (message.go line 42). -/
abbrev eISCPPacket := List Nat

/-- The fresh outbound packet template (message.go, `newEISCPPacket`). -/
def newEISCPPacket : eISCPPacket :=
  [0x49, 0x53, 0x43, 0x50,
   0x00, 0x00, 0x00, 0x10,
   0x00, 0x00, 0x00, 0x00,
   0x01, 0x00, 0x00, 0x00,
   0x21, 0x31, 0x00, 0x00,
   0x00, 0x00, 0x00, 0x00,
   0x00, 0x00, 0x00, 0x00,
   0x00, 0x00, 0x00, 0x00]

/-- Write the bytes of `data` into `p` at consecutive positions starting at
`index`, one write per element.  Used to characterize the loops of
`eISCPPacket.init`: the zero loop writes a run of zeros, and on all-ASCII
input the copy loop writes every byte. -/
def writeBytes (p : List Nat) (index : Nat) : List Nat → List Nat
  | [] => p
  | b :: rest => writeBytes (p.set index b) (index + 1) rest

/-- Is `b` a UTF-8 continuation byte (`0x80`-`0xBF`)? -/
abbrev contByte (b : Nat) : Prop := 0x80 ≤ b ∧ b ≤ 0xBF

/-- The number of bytes consumed by one iteration of Go's `range` over a
string starting at the given suffix: the width of the leading UTF-8 rune
per Go's `utf8.DecodeRuneInString` (leading-byte classes `0xC2`-`0xDF`,
`0xE0`, `0xE1`-`0xEC`/`0xEE`/`0xEF`, `0xED`, `0xF0`, `0xF1`-`0xF3`, `0xF4`
with their accept ranges), and 1 for an ASCII byte or any invalid or
truncated sequence. -/
def utf8RuneWidth : List Nat → Nat
  | [] => 0
  | b0 :: rest =>
    if b0 < 0x80 then 1
    else if 0xC2 ≤ b0 ∧ b0 ≤ 0xDF then
      match rest with
      | b1 :: _ => if contByte b1 then 2 else 1
      | [] => 1
    else if b0 = 0xE0 then
      match rest with
      | b1 :: b2 :: _ => if (0xA0 ≤ b1 ∧ b1 ≤ 0xBF) ∧ contByte b2 then 3 else 1
      | _ => 1
    else if (0xE1 ≤ b0 ∧ b0 ≤ 0xEC) ∨ b0 = 0xEE ∨ b0 = 0xEF then
      match rest with
      | b1 :: b2 :: _ => if contByte b1 ∧ contByte b2 then 3 else 1
      | _ => 1
    else if b0 = 0xED then
      match rest with
      | b1 :: b2 :: _ => if (0x80 ≤ b1 ∧ b1 ≤ 0x9F) ∧ contByte b2 then 3 else 1
      | _ => 1
    else if b0 = 0xF0 then
      match rest with
      | b1 :: b2 :: b3 :: _ =>
        if ((0x90 ≤ b1 ∧ b1 ≤ 0xBF) ∧ contByte b2) ∧ contByte b3 then 4 else 1
      | _ => 1
    else if 0xF1 ≤ b0 ∧ b0 ≤ 0xF3 then
      match rest with
      | b1 :: b2 :: b3 :: _ => if (contByte b1 ∧ contByte b2) ∧ contByte b3 then 4 else 1
      | _ => 1
    else if b0 = 0xF4 then
      match rest with
      | b1 :: b2 :: b3 :: _ =>
        if ((0x80 ≤ b1 ∧ b1 ≤ 0x8F) ∧ contByte b2) ∧ contByte b3 then 4 else 1
      | _ => 1
    else 1

/-- The loop `for i := range message { p[index] = message[i]; index++ }`
from `eISCPPacket.init`.  Go's `range` over a string visits the UTF-8
rune-start indices only, so each iteration copies the first byte of one
rune and advances the string position by that rune's width
(`utf8RuneWidth`) while `index` advances by one.  Returns the updated
packet and the final `index`.  `fuel` is the byte length of the remaining
message; every step consumes at least one byte, so the fuel never runs out
on the initial call (the fuel-exhausted case is unreachable). -/
def writeRuneStartBytes : Nat → List Nat → Nat → List Nat → List Nat × Nat
  | _, p, index, [] => (p, index)
  | 0, p, index, _ :: _ => (p, index)
  | fuel + 1, p, index, b :: rest =>
    writeRuneStartBytes fuel (p.set index b) (index + 1)
      ((b :: rest).drop (utf8RuneWidth (b :: rest)))

/-- Zero `count` consecutive bytes of `p` starting at position `i`. -/
def zeroCount (p : List Nat) (i : Nat) : Nat → List Nat
  | 0 => p
  | count + 1 => zeroCount (p.set i 0) (i + 1) count

/-- The loop `for i := index + 1; i < packetSize; i++ { p[i] = 0x00 }` from
`eISCPPacket.init`: zero the bytes of `p` at positions `i, i+1, ..., stop-1`
(the loop body runs `stop - i` times). -/
def zeroFrom (p : List Nat) (i stop : Nat) : List Nat :=
  zeroCount p i (stop - i)

/-- `eISCPPacket.init` (message.go lines 60-75): initialize an outbound
packet created with `newEISCPPacket` with the given message bytes.  Fails
when the message is longer than `maxMessageSize` (13) bytes.  The data
size is computed from the byte length, but the copy loop ranges over the
message as a Go string, i.e. over rune-start indices
(`writeRuneStartBytes`); the terminator goes at the final value of
`index` and the zero loop runs from there to the end of the packet. -/
def eISCPPacket.init (p : eISCPPacket) (message : List Nat) : Except String eISCPPacket :=
  if message.length > maxMessageSize then
    Except.error "Message too long"
  else
    Except.ok
      (zeroFrom
        ((writeRuneStartBytes message.length
            (p.set dataSizeIndex (message.length + dataOverhead))
            messageOffset message).1.set
          (writeRuneStartBytes message.length
            (p.set dataSizeIndex (message.length + dataOverhead))
            messageOffset message).2 endOfPacketTx)
        ((writeRuneStartBytes message.length
            (p.set dataSizeIndex (message.length + dataOverhead))
            messageOffset message).2 + 1) packetSize)

/-- A `Message` is an ISCP message (message.go lines 123-126).  The Go
`string` fields are byte strings, modelled as lists of bytes. -/
structure Message where
  Command : List Nat
  Parameter : List Nat
deriving DecidableEq, Repr

/-- `Message.String` (message.go lines 129-131): the wire form
`command + parameter`. -/
def Message.string (m : Message) : List Nat :=
  m.Command ++ m.Parameter

/-- `newMessage` (message.go lines 135-139): split a payload into the 3-byte
command and the remaining parameter.  In Go this evaluates `m[:3]` and
`m[3:]`; `m[3:]` panics when `len(m) < 3`, which is modelled by `none`. -/
def newMessage (m : List Nat) : Option Message :=
  if 3 ≤ m.length then some ⟨m.take 3, m.drop 3⟩ else none

/-- The local `messageSize := p[dataSizeIndex] - dataOverhead` of
`eISCPPacket.message`, computed with Go `byte` arithmetic (the subtraction
wraps modulo 256). -/
def messageSizeOf (p : eISCPPacket) : Nat :=
  (p.getD dataSizeIndex 0 + 256 - dataOverhead) % 256

/-- The upper bound `messageOffset + messageSize` of the slice taken by
`eISCPPacket.message`, again with Go `byte` arithmetic. -/
def messageHi (p : eISCPPacket) : Nat :=
  (messageOffset + messageSizeOf p) % 256

/-- `eISCPPacket.message` (message.go lines 80-83): extract the ISCP message
from a packet.  The slice `p[messageOffset : messageOffset+messageSize]`
panics — modelled by `none` — when its bounds are inverted or exceed the
packet. -/
def eISCPPacket.message (p : eISCPPacket) : Option Message :=
  if messageOffset ≤ messageHi p ∧ messageHi p ≤ p.length then
    newMessage ((p.drop messageOffset).take (messageHi p - messageOffset))
  else
    none

/-- The index `headerSize + p[dataSizeIndex] - 1` accessed by the final case
of `eISCPPacket.check`, computed with Go `byte` arithmetic. -/
def endOfPacketIndex (p : eISCPPacket) : Nat :=
  (headerSize + p.getD dataSizeIndex 0 + 255) % 256

/-- `eISCPPacket.check` (message.go lines 86-103): integrity check on the
packet.  The first four cases read fixed positions (all below 18, in bounds
for the 32-byte packets the session uses); the final case reads the
data-dependent position `endOfPacketIndex p`, and `none` models the Go
index-out-of-range panic were that position outside the packet. -/
def eISCPPacket.check (p : eISCPPacket) (endOfPacket : Nat) : Option (Except String Unit) :=
  if p.getD 0 0 ≠ 0x49 ∨ p.getD 1 0 ≠ 0x53 ∨ p.getD 2 0 ≠ 0x43 ∨ p.getD 3 0 ≠ 0x50 then
    some (Except.error "first 4 header bytes do not match ISCP")
  else if p.getD headerSize 0 ≠ 0x21 ∨ p.getD (headerSize + 1) 0 ≠ 0x31 then
    some (Except.error "first 2 data bytes do not match !1")
  else if p.getD headerSizeIndex 0 ≠ headerSize then
    some (Except.error "header size is not expected size")
  else if p.getD dataSizeIndex 0 > maxDataSize then
    some (Except.error "data size greater than max size")
  else if _h : endOfPacketIndex p < p.length then
    if p.getD (endOfPacketIndex p) 0 ≠ endOfPacket then
      some (Except.error "end of packet did not match expected value")
    else
      some (Except.ok ())
  else
    none

/-- The first 18 bytes the spec's wire table prescribes for a frame carrying
payload `msg`: magic `ISCP` at offsets 0-3, header size 16 at offset 7, data
size `msg.length + 3` at offset 11, version marker at offsets 12-15 and the
start marker `!1` at offsets 16-17. -/
def specFrameHeader (msg : List Nat) : List Nat :=
  [0x49, 0x53, 0x43, 0x50, 0x00, 0x00, 0x00, 0x10,
   0x00, 0x00, 0x00, msg.length + dataOverhead,
   0x01, 0x00, 0x00, 0x00, 0x21, 0x31]

/-- The frame layout the spec's wire table prescribes for a payload `msg`
(refinement target for the encoder): the 18 header/start bytes, the payload
at offset 18, the outbound terminator right after it, and zero padding to
offset 31. -/
def specFrameLayout (msg : List Nat) : eISCPPacket :=
  specFrameHeader msg ++ msg ++ [endOfPacketTx] ++
    List.replicate (maxMessageSize - msg.length) 0

/-- A 32-byte frame that passes `check` with the inbound terminator but whose
data-size field is `3` (an empty payload): the terminator sits at index 18. -/
def emptyPayloadFrame : eISCPPacket :=
  [0x49, 0x53, 0x43, 0x50, 0x00, 0x00, 0x00, 0x10,
   0x00, 0x00, 0x00, 0x03, 0x01, 0x00, 0x00, 0x00,
   0x21, 0x31, 0x1a, 0x00, 0x00, 0x00, 0x00, 0x00,
   0x00, 0x00, 0x00, 0x00, 0x00, 0x00, 0x00, 0x00]

/-- The device state map `state.m : map[string]string` (integra.go line 38),
as an association list with unique keys (keys are ISCP commands). -/
abbrev StateMap := List (List Nat × List Nat)

/-- Go map assignment `m[k] = v`: overwrite the entry for `k` if present,
otherwise add it. -/
def mapSet : StateMap → List Nat → List Nat → StateMap
  | [], k, v => [(k, v)]
  | (k2, v2) :: rest, k, v =>
    if k2 = k then (k, v) :: rest else (k2, v2) :: mapSet rest k v

/-- Go map lookup `m[k]`. -/
def mapGet : StateMap → List Nat → Option (List Nat)
  | [], _ => none
  | (k2, v2) :: rest, k => if k2 = k then some v2 else mapGet rest k

/-- The receive path's cache update (integra.go lines 175-177):
`d.state.m[message.Command] = message.Parameter`. -/
def stateObserve (st : StateMap) (m : Message) : StateMap :=
  mapSet st m.Command m.Parameter

/-- The cache contents after the receive path has observed the given
messages in order, starting from the empty map made by `Connect`. -/
def runObservations (msgs : List Message) : StateMap :=
  msgs.foldl stateObserve []

/-- `Client.State` (integra.go lines 231-239): build a fresh map and copy
every entry of the device cache into it under the read lock. -/
def clientState (st : StateMap) : StateMap :=
  st.foldl (fun acc kv => mapSet acc kv.1 kv.2) []

/-- The keys of the cache. -/
def stateKeys (st : StateMap) : List (List Nat) :=
  st.map Prod.fst

/-- The session's client-facing state: the live client set `d.clients`
(clients are identified by `Nat` tokens), the set of clients whose receive
channel has been closed, and the deliveries made by broadcasts. -/
structure BState where
  live : List Nat
  closedChans : List Nat
  delivered : List (Nat × Message)
deriving DecidableEq, Repr

/-- `Device.removeClient` (integra.go lines 86-108): a no-op when the client
is not in the live map (making removal safe to repeat across the
explicit/implicit paths); otherwise delete it from the live map and close
its receive channel.  The `explicitRemove` flag only selects a log line. -/
def removeClient (st : BState) (c : Nat) (explicitRemove : Bool) : BState :=
  if st.live.contains c then
    { live := st.live.filter (fun x => x != c),
      closedChans := st.closedChans ++ [c],
      delivered := st.delivered }
  else
    st

/-- The broadcast in `Device.mainLoop` (integra.go lines 136-144): for each
live client, a non-blocking `select` send.  `ready c` says whether client
`c` is currently blocked in `Receive` so that the unbuffered send succeeds;
otherwise the `default` branch removes the client. -/
def broadcastMessage (ready : Nat → Bool) (msg : Message) : List Nat → BState → BState
  | [], st => st
  | c :: rest, st =>
    if ready c then
      broadcastMessage ready msg rest { st with delivered := st.delivered ++ [(c, msg)] }
    else
      broadcastMessage ready msg rest (removeClient st c false)

/-- `Client.Receive` (integra.go lines 214-220): `m, ok := <-c.receive`.
Receiving on a closed channel yields `ok = false` and the call returns the
"channel closed" error; otherwise it returns the delivered message. -/
def clientReceive (chanClosed : Bool) (m : Message) : Except String Message :=
  if chanClosed then Except.error "channel closed" else Except.ok m

/-- `Client.Close` (integra.go lines 243-245): sends the client over
`d.remove`, which `mainLoop` hands to `removeClient(client, true)`. -/
def clientClose (st : BState) (c : Nat) : BState :=
  removeClient st c true

/-- The `case request := <-d.send` branch of `Device.mainLoop` (integra.go
lines 121-135) with a healthy transport (`conn.Write` returns no error):
encode the message into the shared transmit buffer and report the result to
the requesting client.  Note that the branch never consults the live client
set `st`, nor who the `sender` is. -/
def handleSend (st : BState) (sender : Nat) (msg : Message) : Except String Unit :=
  match eISCPPacket.init newEISCPPacket msg.string with
  | Except.error e => Except.error e
  | Except.ok _ => Except.ok ()

/-- The outcome of `d.conn.Read(d.rxbuf)` in `Device.receiveLoop`:
a successful read leaving `p` in the receive buffer, a clean end-of-stream
(`io.EOF`), or another read error. -/
inductive ReadResult where
  | chunk (p : eISCPPacket) (n : Nat)
  | eof
  | readError (e : String)

/-- The whole session: the device state cache, the client-facing state, and
whether the process has terminated. -/
structure SessionState where
  cache : StateMap
  bstate : BState
  terminated : Bool
deriving Repr

/-- `d.exit <- code` answered by `mainLoop`'s `case code := <-d.exit:
os.Exit(code)` (integra.go lines 145-146).  `os.Exit` terminates the whole
process at once: every goroutine dies and every channel — in particular
every live client's receive channel — ceases to exist, so no handle stays
open and no client can be partially serviced afterwards. -/
def exitProcess (st : SessionState) (code : Nat) : SessionState :=
  { cache := st.cache,
    bstate := { live := [],
                closedChans := st.bstate.closedChans ++ st.bstate.live,
                delivered := st.bstate.delivered },
    terminated := true }

/-- One iteration of `Device.receiveLoop` (integra.go lines 154-181) given
the outcome of the blocking read: `io.EOF` sends 1 over `d.exit` (process
exit); any other read error logs and continues; a successful read is
checked, decoded, recorded in the cache and broadcast (a decode panic would
kill the process). -/
def receiveLoopStep (ready : Nat → Bool) (st : SessionState) (r : ReadResult) : SessionState :=
  match r with
  | ReadResult.eof => exitProcess st 1
  | ReadResult.readError _ => st
  | ReadResult.chunk p _ =>
    match p.check endOfPacketRx with
    | some (Except.ok ()) =>
      match p.message with
      | some m =>
        { cache := stateObserve st.cache m,
          bstate := broadcastMessage ready m st.bstate.live st.bstate,
          terminated := st.terminated }
      | none => exitProcess st 2
    | _ => st


/-! ## Sanity checks on concrete inputs -/

example : eISCPPacket.init newEISCPPacket [0x50, 0x57, 0x52, 0x30, 0x31] =
    Except.ok [0x49, 0x53, 0x43, 0x50, 0, 0, 0, 0x10, 0, 0, 0, 8, 1, 0, 0, 0,
               0x21, 0x31, 0x50, 0x57, 0x52, 0x30, 0x31, 0x0a, 0, 0, 0, 0, 0, 0, 0, 0] := by
  rfl

example :
    (eISCPPacket.init newEISCPPacket [0x50, 0x57, 0x52, 0x30, 0x31]).toOption.bind
      eISCPPacket.message = some ⟨[0x50, 0x57, 0x52], [0x30, 0x31]⟩ := by
  rfl

/-! ## List lemmas -/

theorem take_append_add (A B : List Nat) (n : Nat) :
    (A ++ B).take (A.length + n) = A ++ B.take n := by
  induction A with
  | nil => simp
  | cons a A ih =>
    have h : (a :: A).length + n = (A.length + n) + 1 := by
      simp only [List.length_cons]
      omega
    rw [List.cons_append, h, List.take_succ_cons, ih, List.cons_append]

theorem drop_append_add (A B : List Nat) (n : Nat) :
    (A ++ B).drop (A.length + n) = B.drop n := by
  induction A with
  | nil => simp
  | cons a A ih =>
    have h : (a :: A).length + n = (A.length + n) + 1 := by
      simp only [List.length_cons]
      omega
    rw [List.cons_append, h, List.drop_succ_cons, ih]

theorem set_append_length (A B : List Nat) (b v : Nat) :
    (A ++ b :: B).set A.length v = A ++ v :: B := by
  induction A with
  | nil => rfl
  | cons a A ih => simp [List.length_cons, ih]

theorem drop_replicate (a : Nat) : ∀ (n i : Nat),
    (List.replicate n a).drop i = List.replicate (n - i) a
  | n, 0 => by simp
  | 0, i + 1 => by simp
  | n + 1, i + 1 => by
    simp [List.replicate_succ, drop_replicate a n i]

/-- Characterization of the write loop of `eISCPPacket.init`. -/
theorem writeBytes_eq : ∀ (d p : List Nat) (i : Nat), i + d.length ≤ p.length →
    writeBytes p i d = p.take i ++ d ++ p.drop (i + d.length)
  | [], p, i, h => by
    simp [writeBytes]
  | b :: rest, p, i, h => by
    have hi : i < p.length := by
      simp [List.length_cons] at h
      omega
    have hlen2 : (i + 1) + rest.length ≤ (p.set i b).length := by
      simp only [List.length_set]
      simp [List.length_cons] at h
      omega
    have hA : (p.take i).length = i := by
      simp [List.length_take]
      omega
    rw [writeBytes, writeBytes_eq rest (p.set i b) (i + 1) hlen2,
        List.set_eq_take_cons_drop b hi]
    have h1 : (p.take i ++ b :: p.drop (i + 1)).take (i + 1) = p.take i ++ [b] := by
      rw [show i + 1 = (p.take i).length + 1 by omega, take_append_add]
      simp
    have h2 : (p.take i ++ b :: p.drop (i + 1)).drop (i + 1 + rest.length) =
        p.drop (i + (rest.length + 1)) := by
      rw [show i + 1 + rest.length = (p.take i).length + (1 + rest.length) by omega,
          drop_append_add, Nat.add_comm 1 rest.length, List.drop_succ_cons,
          List.drop_drop]
      congr 1
      omega
    rw [h1, h2]
    simp [List.length_cons]

/-- The zeroing loop of `eISCPPacket.init` writes a run of zero bytes. -/
theorem zeroCount_eq_writeBytes : ∀ (n : Nat) (p : List Nat) (i : Nat),
    zeroCount p i n = writeBytes p i (List.replicate n 0)
  | 0, p, i => rfl
  | n + 1, p, i => by
    simp [zeroCount, List.replicate_succ, writeBytes, zeroCount_eq_writeBytes n]

/-- On a nonempty ASCII suffix the copy loop of `eISCPPacket.init` copies
every byte: each rune is one byte wide, so the rune-start writes coincide
with `writeBytes` and the final index is the start plus the byte length. -/
theorem writeRuneStartBytes_ascii : ∀ (s : List Nat) (fuel : Nat) (p : List Nat) (i : Nat),
    s.length ≤ fuel → (∀ b ∈ s, b < 0x80) →
    writeRuneStartBytes fuel p i s = (writeBytes p i s, i + s.length)
  | [], fuel, p, i, _, _ => by
    cases fuel <;> simp [writeRuneStartBytes, writeBytes]
  | b :: rest, fuel, p, i, hf, ha => by
    cases fuel with
    | zero =>
      simp only [List.length_cons] at hf
      omega
    | succ f =>
      have hb : b < 0x80 := ha b (List.mem_cons_self b rest)
      have hw : utf8RuneWidth (b :: rest) = 1 := by
        simp only [utf8RuneWidth]
        rw [if_pos hb]
      have hstep : writeRuneStartBytes (f + 1) p i (b :: rest) =
          writeRuneStartBytes f (p.set i b) (i + 1) rest := by
        simp only [writeRuneStartBytes]
        rw [hw]
        rfl
      rw [hstep,
        writeRuneStartBytes_ascii rest f (p.set i b) (i + 1)
          (by simp only [List.length_cons] at hf; omega)
          (fun x hx => ha x (List.mem_cons_of_mem b hx)),
        Prod.mk.injEq]
      refine ⟨rfl, ?_⟩
      simp only [List.length_cons]
      omega

/-- `eISCPPacket.init` on a fresh packet with an all-ASCII message produces
exactly the frame layout the spec's wire table prescribes. -/
theorem init_spec (msg : List Nat) (h : msg.length ≤ 13)
    (hascii : ∀ b ∈ msg, b < 0x80) :
    eISCPPacket.init newEISCPPacket msg = Except.ok (specFrameLayout msg) := by
  have hmax : maxMessageSize = 13 := rfl
  have hmo : messageOffset = 18 := rfl
  have hps : packetSize = 32 := rfl
  unfold eISCPPacket.init
  rw [if_neg (by omega)]
  rw [writeRuneStartBytes_ascii msg msg.length
    (newEISCPPacket.set dataSizeIndex (msg.length + dataOverhead)) messageOffset
    (Nat.le_refl _) hascii]
  dsimp only
  have hp1 : newEISCPPacket.set dataSizeIndex (msg.length + dataOverhead) =
      specFrameHeader msg ++ List.replicate 14 0 := by
    rfl
  rw [hp1]
  have hHlen : (specFrameHeader msg).length = 18 := rfl
  have hw : writeBytes (specFrameHeader msg ++ List.replicate 14 0) messageOffset msg =
      (specFrameHeader msg ++ msg) ++ List.replicate (14 - msg.length) 0 := by
    rw [writeBytes_eq msg _ messageOffset
      (by simp only [List.length_append, List.length_replicate, hHlen]; omega)]
    have ht : (specFrameHeader msg ++ List.replicate 14 0).take messageOffset =
        specFrameHeader msg := by
      rw [show messageOffset = (specFrameHeader msg).length + 0 by omega, take_append_add]
      simp
    have hd : (specFrameHeader msg ++ List.replicate 14 0).drop (messageOffset + msg.length) =
        List.replicate (14 - msg.length) 0 := by
      rw [show messageOffset + msg.length = (specFrameHeader msg).length + msg.length by omega,
          drop_append_add, drop_replicate]
    rw [ht, hd]
  rw [hw]
  have hQlen : (specFrameHeader msg ++ msg).length = messageOffset + msg.length := by
    simp only [List.length_append, hHlen]
    omega
  have hset : ((specFrameHeader msg ++ msg) ++ List.replicate (14 - msg.length) 0).set
      (messageOffset + msg.length) endOfPacketTx =
      (specFrameHeader msg ++ msg) ++ endOfPacketTx :: List.replicate (13 - msg.length) 0 := by
    rw [show (14 : Nat) - msg.length = (13 - msg.length) + 1 by omega, List.replicate_succ,
        ← hQlen, set_append_length]
  rw [hset]
  unfold zeroFrom
  rw [zeroCount_eq_writeBytes]
  have hcount : packetSize - (messageOffset + msg.length + 1) = 13 - msg.length := by
    omega
  rw [hcount]
  have hlenP3 : ((specFrameHeader msg ++ msg) ++
      endOfPacketTx :: List.replicate (13 - msg.length) 0).length = 32 := by
    simp only [List.length_append, List.length_cons, List.length_replicate, hHlen]
    omega
  rw [writeBytes_eq (List.replicate (13 - msg.length) 0) _ _
    (by rw [hlenP3]; simp only [List.length_replicate]; omega)]
  have ht2 : ((specFrameHeader msg ++ msg) ++
      endOfPacketTx :: List.replicate (13 - msg.length) 0).take (messageOffset + msg.length + 1) =
      (specFrameHeader msg ++ msg) ++ [endOfPacketTx] := by
    rw [show messageOffset + msg.length + 1 = (specFrameHeader msg ++ msg).length + 1 by omega,
        take_append_add]
    simp
  have hd2 : ((specFrameHeader msg ++ msg) ++
      endOfPacketTx :: List.replicate (13 - msg.length) 0).drop
        (messageOffset + msg.length + 1 + (List.replicate (13 - msg.length) 0).length) = [] := by
    rw [show messageOffset + msg.length + 1 + (List.replicate (13 - msg.length) 0).length =
        (specFrameHeader msg ++ msg).length + (1 + (List.replicate (13 - msg.length) 0).length)
        by rw [hQlen]; omega,
        drop_append_add,
        Nat.add_comm 1 (List.replicate (13 - msg.length) 0).length, List.drop_succ_cons,
        List.drop_eq_nil_of_le (by simp)]
  rw [ht2, hd2]
  unfold specFrameLayout
  rw [hmax]
  simp

/-- The data-size field of the spec frame layout. -/
theorem specFrame_dataSize (msg : List Nat) :
    (specFrameLayout msg).getD dataSizeIndex 0 = msg.length + dataOverhead := by
  unfold specFrameLayout specFrameHeader
  rw [List.getD_append _ _ _ _ (by simp [dataSizeIndex]),
      List.getD_append _ _ _ _ (by simp [dataSizeIndex]),
      List.getD_append _ _ _ _ (by simp [dataSizeIndex])]
  rfl

/-- The length of the spec frame layout is the full 32-byte packet. -/
theorem specFrame_length (msg : List Nat) (h : msg.length ≤ 13) :
    (specFrameLayout msg).length = 32 := by
  unfold specFrameLayout specFrameHeader
  have hmax : maxMessageSize = 13 := rfl
  simp only [List.length_append, List.length_cons, List.length_nil, List.length_replicate,
    List.length_singleton, hmax]
  omega

/-- Decoding the spec frame layout recovers the payload, split after byte 3. -/
theorem message_specFrameLayout (msg : List Nat) (h3 : 3 ≤ msg.length)
    (h13 : msg.length ≤ 13) :
    eISCPPacket.message (specFrameLayout msg) = some ⟨msg.take 3, msg.drop 3⟩ := by
  have hdo : dataOverhead = 3 := rfl
  have hmo : messageOffset = 18 := rfl
  have hsz : messageSizeOf (specFrameLayout msg) = msg.length := by
    unfold messageSizeOf
    rw [specFrame_dataSize]
    omega
  have hhi : messageHi (specFrameLayout msg) = messageOffset + msg.length := by
    unfold messageHi
    rw [hsz]
    omega
  have hlen : (specFrameLayout msg).length = 32 := specFrame_length msg h13
  have hHlen : (specFrameHeader msg).length = 18 := rfl
  unfold eISCPPacket.message
  rw [hhi, hlen, if_pos ⟨by omega, by omega⟩]
  have hdrop : (specFrameLayout msg).drop messageOffset =
      (msg ++ [endOfPacketTx]) ++ List.replicate (maxMessageSize - msg.length) 0 := by
    unfold specFrameLayout
    rw [List.append_assoc, List.append_assoc,
        show messageOffset = (specFrameHeader msg).length + 0 by omega,
        drop_append_add]
    simp [List.append_assoc]
  rw [hdrop]
  have htake : ((msg ++ [endOfPacketTx]) ++
      List.replicate (maxMessageSize - msg.length) 0).take
        (messageOffset + msg.length - messageOffset) = msg := by
    rw [show messageOffset + msg.length - messageOffset = msg.length + 0 by omega,
        List.append_assoc, take_append_add]
    simp
  rw [htake]
  unfold newMessage
  rw [if_pos h3]

/-- The spec frame layout passes the integrity check with the outbound
terminator. -/
theorem check_specFrameLayout (msg : List Nat) (h : msg.length ≤ 13) :
    (specFrameLayout msg).check endOfPacketTx = some (Except.ok ()) := by
  have hdo : dataOverhead = 3 := rfl
  have hhs : headerSize = 16 := rfl
  have hmd : maxDataSize = 16 := rfl
  have hHlen : (specFrameHeader msg).length = 18 := rfl
  have hg : ∀ j, j < 18 → (specFrameLayout msg).getD j 0 = (specFrameHeader msg).getD j 0 := by
    intro j hj
    unfold specFrameLayout
    rw [List.getD_append _ _ _ _ (by rw [List.length_append, List.length_append]; omega),
        List.getD_append _ _ _ _ (by rw [List.length_append]; omega),
        List.getD_append _ _ _ _ (by omega)]
  have hidx : endOfPacketIndex (specFrameLayout msg) = 18 + msg.length := by
    unfold endOfPacketIndex
    rw [specFrame_dataSize]
    omega
  have hlen : (specFrameLayout msg).length = 32 := specFrame_length msg h
  have hgend : (specFrameLayout msg).getD (endOfPacketIndex (specFrameLayout msg)) 0 =
      endOfPacketTx := by
    rw [hidx]
    unfold specFrameLayout
    rw [List.append_assoc, List.append_assoc,
        List.getD_append_right _ _ _ _ (by rw [hHlen]; omega)]
    rw [show 18 + msg.length - (specFrameHeader msg).length = msg.length + 0 by
          rw [hHlen]; omega,
        List.getD_append_right _ _ _ _ (by omega)]
    simp
  unfold eISCPPacket.check
  rw [if_neg (by
        rw [hg 0 (by omega), hg 1 (by omega), hg 2 (by omega), hg 3 (by omega)]
        simp [specFrameHeader]),
      if_neg (by
        rw [hg headerSize (by omega), hg (headerSize + 1) (by omega)]
        simp [specFrameHeader, hhs]),
      if_neg (by
        rw [hg headerSizeIndex (by simp [headerSizeIndex])]
        simp [specFrameHeader, headerSizeIndex, hhs]),
      if_neg (by rw [specFrame_dataSize]; omega),
      dif_pos (by rw [hidx, hlen]; omega),
      if_neg (by rw [hgend]; simp)]

/-! ## C1 - C3: claims about the frame codec -/

/-- C1 counterexample: the round trip fails as originally claimed.  For the
message PWR followed by the two-byte UTF-8 rune `0xC3 0xA9` (command
exactly 3 characters, 5 bytes ≤ 13) the copy loop visits only the rune
start, so the frame carries `P W R 0xC3` and the early terminator while the
data-size field says 5; decode then returns parameter `[0xC3, 0x0a]`, not
the original `[0xC3, 0xA9]`. -/
theorem decode_encode_roundTrip_counterexample :
    ([0x50, 0x57, 0x52] : List Nat).length = 3 ∧
    (([0x50, 0x57, 0x52] : List Nat) ++ [0xC3, 0xA9]).length ≤ 13 ∧
    (eISCPPacket.init newEISCPPacket
        (([0x50, 0x57, 0x52] : List Nat) ++ [0xC3, 0xA9])).toOption.bind
      eISCPPacket.message = some ⟨[0x50, 0x57, 0x52], [0xC3, 0x0a]⟩ ∧
    (eISCPPacket.init newEISCPPacket
        (([0x50, 0x57, 0x52] : List Nat) ++ [0xC3, 0xA9])).toOption.bind
      eISCPPacket.message ≠ some ⟨[0x50, 0x57, 0x52], [0xC3, 0xA9]⟩ :=
  ⟨rfl, by decide, by decide, by decide⟩

/-- C1 (amended to all-ASCII messages): for every Message whose command is
exactly 3 bytes, whose serialized command+parameter is at most 13 bytes and
all of whose bytes are ASCII (< `0x80`, so every byte is a rune start for
the copy loop), encoding it with `eISCPPacket.init` on a packet from
`newEISCPPacket` and then decoding the resulting frame with
`eISCPPacket.message` yields the original message. -/
theorem decode_encode_roundTrip (c param : List Nat) (hc : c.length = 3)
    (hlen : (c ++ param).length ≤ 13)
    (hascii : ∀ b ∈ c ++ param, b < 0x80) :
    (eISCPPacket.init newEISCPPacket (c ++ param)).toOption.bind eISCPPacket.message =
      some ⟨c, param⟩ := by
  rw [init_spec (c ++ param) hlen hascii]
  show eISCPPacket.message (specFrameLayout (c ++ param)) = some ⟨c, param⟩
  rw [message_specFrameLayout _ (by rw [List.length_append, hc]; omega) hlen]
  rw [← hc, List.take_left, List.drop_left]

/-- Witness for C1 at the concrete message PWR01. -/
theorem decode_encode_roundTrip_witness :
    ([0x50, 0x57, 0x52] : List Nat).length = 3 ∧
    (([0x50, 0x57, 0x52] : List Nat) ++ [0x30, 0x31]).length ≤ 13 ∧
    (∀ b ∈ ([0x50, 0x57, 0x52] : List Nat) ++ [0x30, 0x31], b < 0x80) ∧
    (eISCPPacket.init newEISCPPacket (([0x50, 0x57, 0x52] : List Nat) ++ [0x30, 0x31])).toOption.bind
      eISCPPacket.message = some ⟨[0x50, 0x57, 0x52], [0x30, 0x31]⟩ :=
  ⟨rfl, by decide, by decide,
    decode_encode_roundTrip [0x50, 0x57, 0x52] [0x30, 0x31] rfl (by decide) (by decide)⟩

/-- C2: `eISCPPacket.init` fails if and only if the serialized
command+parameter exceeds 13 bytes; in particular a 13-byte message encodes
successfully and a 14-byte message fails. -/
theorem init_error_iff_too_long (m : List Nat) :
    ((∃ e, eISCPPacket.init newEISCPPacket m = Except.error e) ↔ 13 < m.length)
    ∧ (m.length = 13 → ∃ f, eISCPPacket.init newEISCPPacket m = Except.ok f)
    ∧ (m.length = 14 → ∃ e, eISCPPacket.init newEISCPPacket m = Except.error e) := by
  have hmax : maxMessageSize = 13 := rfl
  unfold eISCPPacket.init
  split_ifs with hgt
  · exact ⟨⟨fun _ => by omega, fun _ => ⟨_, rfl⟩⟩,
      fun hl => by omega,
      fun _ => ⟨_, rfl⟩⟩
  · refine ⟨⟨fun h => ?_, fun h => by omega⟩, fun _ => ⟨_, rfl⟩, fun h14 => by omega⟩
    obtain ⟨e, he⟩ := h
    simp at he

/-- Witness for C2 at messages of lengths 13 and 14. -/
theorem init_error_iff_too_long_witness :
    (∃ f, eISCPPacket.init newEISCPPacket (List.replicate 13 0x30) = Except.ok f) ∧
    (∃ e, eISCPPacket.init newEISCPPacket (List.replicate 14 0x30) = Except.error e) :=
  ⟨(init_error_iff_too_long (List.replicate 13 0x30)).2.1 (by decide),
   (init_error_iff_too_long (List.replicate 14 0x30)).2.2 (by decide)⟩

/-- C3 counterexample: the layout claim fails as originally stated.  For
payload `[0x50, 0x57, 0x52, 0xC3, 0xA9]` (5 bytes ≤ 13) the copy loop
writes only the 4 rune-start bytes, the terminator lands at offset 22
while the data-size field says 8, so the produced frame differs from the
prescribed layout and fails `check` with the outbound terminator (the byte
at the data-size-implied position 23 is zero). -/
theorem encode_frame_layout_counterexample :
    ([0x50, 0x57, 0x52, 0xC3, 0xA9] : List Nat).length ≤ 13 ∧
    eISCPPacket.init newEISCPPacket [0x50, 0x57, 0x52, 0xC3, 0xA9] =
      Except.ok [0x49, 0x53, 0x43, 0x50, 0, 0, 0, 0x10, 0, 0, 0, 8, 1, 0, 0, 0,
        0x21, 0x31, 0x50, 0x57, 0x52, 0xC3, 0x0a, 0, 0, 0, 0, 0, 0, 0, 0, 0] ∧
    eISCPPacket.init newEISCPPacket [0x50, 0x57, 0x52, 0xC3, 0xA9] ≠
      Except.ok (specFrameLayout [0x50, 0x57, 0x52, 0xC3, 0xA9]) ∧
    eISCPPacket.check
      [0x49, 0x53, 0x43, 0x50, 0, 0, 0, 0x10, 0, 0, 0, 8, 1, 0, 0, 0,
       0x21, 0x31, 0x50, 0x57, 0x52, 0xC3, 0x0a, 0, 0, 0, 0, 0, 0, 0, 0, 0]
      endOfPacketTx =
      some (Except.error "end of packet did not match expected value") := by
  refine ⟨by decide, rfl, fun hcontra => ?_, rfl⟩
  rw [show eISCPPacket.init newEISCPPacket [0x50, 0x57, 0x52, 0xC3, 0xA9] =
      Except.ok [0x49, 0x53, 0x43, 0x50, 0, 0, 0, 0x10, 0, 0, 0, 8, 1, 0, 0, 0,
        0x21, 0x31, 0x50, 0x57, 0x52, 0xC3, 0x0a, 0, 0, 0, 0, 0, 0, 0, 0, 0]
      from rfl] at hcontra
  exact absurd (Except.ok.inj hcontra) (by decide)

/-- C3 (amended to all-ASCII messages): for every message of length at most
13 all of whose bytes are ASCII (< `0x80`), `eISCPPacket.init` on a fresh
packet produces exactly the 32-byte frame prescribed by the wire table —
magic at offsets 0-3, header size 16 at offset 7, data size `length + 3`
at offset 11, version marker at 12-15, start marker at 16-17, payload from
offset 18, the outbound terminator right after it and zero padding to the
end — and that frame passes `check` with the outbound terminator. -/
theorem encode_frame_layout (msg : List Nat) (h : msg.length ≤ 13)
    (hascii : ∀ b ∈ msg, b < 0x80) :
    eISCPPacket.init newEISCPPacket msg = Except.ok (specFrameLayout msg) ∧
    (specFrameLayout msg).check endOfPacketTx = some (Except.ok ()) :=
  ⟨init_spec msg h hascii, check_specFrameLayout msg h⟩

/-- Witness for C3 at the concrete message PWR01. -/
theorem encode_frame_layout_witness :
    ([0x50, 0x57, 0x52, 0x30, 0x31] : List Nat).length ≤ 13 ∧
    (∀ b ∈ ([0x50, 0x57, 0x52, 0x30, 0x31] : List Nat), b < 0x80) ∧
    (eISCPPacket.init newEISCPPacket [0x50, 0x57, 0x52, 0x30, 0x31] =
      Except.ok (specFrameLayout [0x50, 0x57, 0x52, 0x30, 0x31]) ∧
    (specFrameLayout [0x50, 0x57, 0x52, 0x30, 0x31]).check endOfPacketTx =
      some (Except.ok ())) :=
  ⟨by decide, by decide,
    encode_frame_layout [0x50, 0x57, 0x52, 0x30, 0x31] (by decide) (by decide)⟩

/-! ## C4, C5, C10: integrity checking and decode safety -/

theorem getD_set_self : ∀ (l : List Nat) (i b : Nat), i < l.length →
    (l.set i b).getD i 0 = b
  | [], i, b, h => by simp at h
  | a :: l, 0, b, _ => rfl
  | a :: l, i + 1, b, h =>
    getD_set_self l i b (by simp [List.length_cons] at h; omega)

theorem getD_set_ne : ∀ (l : List Nat) (i j b : Nat), i ≠ j →
    (l.set i b).getD j 0 = l.getD j 0
  | [], _, _, _, _ => rfl
  | a :: l, 0, 0, b, h => absurd rfl h
  | a :: l, 0, j + 1, b, h => rfl
  | a :: l, i + 1, 0, b, h => rfl
  | a :: l, i + 1, j + 1, b, h => getD_set_ne l i j b (fun e => h (by omega))

/-- The conditions under which `eISCPPacket.check` succeeds, read off the
five cases of its `switch`. -/
theorem check_ok_iff (p : eISCPPacket) (t : Nat) :
    p.check t = some (Except.ok ()) ↔
      p.getD 0 0 = 0x49 ∧ p.getD 1 0 = 0x53 ∧ p.getD 2 0 = 0x43 ∧ p.getD 3 0 = 0x50 ∧
      p.getD headerSize 0 = 0x21 ∧ p.getD (headerSize + 1) 0 = 0x31 ∧
      p.getD headerSizeIndex 0 = headerSize ∧
      p.getD dataSizeIndex 0 ≤ maxDataSize ∧
      endOfPacketIndex p < p.length ∧ p.getD (endOfPacketIndex p) 0 = t := by
  unfold eISCPPacket.check
  split_ifs with h1 h2 h3 h4 h5 h6
  · constructor
    · intro he
      simp at he
    · rintro ⟨g0, g1, g2, g3, -, -, -, -, -, -⟩
      exact absurd h1 (by push_neg; exact ⟨g0, g1, g2, g3⟩)
  · constructor
    · intro he
      simp at he
    · rintro ⟨-, -, -, -, g16, g17, -, -, -, -⟩
      exact absurd h2 (by push_neg; exact ⟨g16, g17⟩)
  · constructor
    · intro he
      simp at he
    · rintro ⟨-, -, -, -, -, -, g7, -, -, -⟩
      exact absurd g7 h3
  · constructor
    · intro he
      simp at he
    · rintro ⟨-, -, -, -, -, -, -, g11, -, -⟩
      omega
  · constructor
    · intro he
      simp at he
    · rintro ⟨-, -, -, -, -, -, -, -, -, gt⟩
      exact absurd gt h6
  · push_neg at h1 h2 h3 h4 h6
    constructor
    · exact fun _ => ⟨h1.1, h1.2.1, h1.2.2.1, h1.2.2.2, h2.1, h2.2, h3, by omega, h5, h6⟩
    · exact fun _ => rfl
  · constructor
    · intro he
      simp at he
    · rintro ⟨-, -, -, -, -, -, -, -, hlt, -⟩
      exact absurd hlt h5

/-- C4: a frame that passes `check` fails it after corrupting any single
byte of the magic, the start marker or the header-size field, and fails it
when checked against any other expected terminator (in particular, an
outbound-terminated frame fails the inbound check and vice versa). -/
theorem corrupt_frame_fails_check (p : eISCPPacket) (t : Nat) (hlen : p.length = 32)
    (hok : p.check t = some (Except.ok ())) :
    (∀ j, j ∈ ([0, 1, 2, 3, 7, 16, 17] : List Nat) → ∀ b, b ≠ p.getD j 0 →
      ∃ e, eISCPPacket.check (p.set j b) t = some (Except.error e)) ∧
    (∀ t2, t2 ≠ t → ∃ e, p.check t2 = some (Except.error e)) := by
  obtain ⟨g0, g1, g2, g3, g16, g17, g7, g11, glt, gt⟩ := (check_ok_iff p t).mp hok
  have hhs : headerSize = 16 := rfl
  have hhsi : headerSizeIndex = 7 := rfl
  have g7b : List.getD p 7 0 = headerSize := g7
  have g16b : List.getD p 16 0 = 33 := g16
  have g17b : List.getD p 17 0 = 49 := g17
  constructor
  · intro j hj b hb
    simp only [List.mem_cons, List.mem_singleton] at hj
    rcases hj with rfl | rfl | rfl | rfl | rfl | rfl | rfl | hj
    rotate_right
    · exact absurd hj (by simp)
    all_goals unfold eISCPPacket.check
    · refine ⟨"first 4 header bytes do not match ISCP", ?_⟩
      rw [if_pos (Or.inl (by rw [getD_set_self p 0 b (by omega)]; rw [g0] at hb; exact hb))]
    · refine ⟨"first 4 header bytes do not match ISCP", ?_⟩
      rw [if_pos (Or.inr (Or.inl
        (by rw [getD_set_self p 1 b (by omega)]; rw [g1] at hb; exact hb)))]
    · refine ⟨"first 4 header bytes do not match ISCP", ?_⟩
      rw [if_pos (Or.inr (Or.inr (Or.inl
        (by rw [getD_set_self p 2 b (by omega)]; rw [g2] at hb; exact hb))))]
    · refine ⟨"first 4 header bytes do not match ISCP", ?_⟩
      rw [if_pos (Or.inr (Or.inr (Or.inr
        (by rw [getD_set_self p 3 b (by omega)]; rw [g3] at hb; exact hb))))]
    · refine ⟨"header size is not expected size", ?_⟩
      rw [if_neg (by
          rw [getD_set_ne p 7 0 b (by omega), getD_set_ne p 7 1 b (by omega),
              getD_set_ne p 7 2 b (by omega), getD_set_ne p 7 3 b (by omega)]
          push_neg
          exact ⟨g0, g1, g2, g3⟩),
        if_neg (by
          rw [show headerSize + 1 = 17 from rfl, show headerSize = 16 from rfl,
              getD_set_ne p 7 16 b (by omega), getD_set_ne p 7 17 b (by omega)]
          push_neg
          exact ⟨g16b, g17b⟩),
        if_pos (by
          rw [hhsi, getD_set_self p 7 b (by omega)]
          rw [g7b] at hb
          exact hb)]
    · refine ⟨"first 2 data bytes do not match !1", ?_⟩
      rw [if_neg (by
          rw [getD_set_ne p 16 0 b (by omega), getD_set_ne p 16 1 b (by omega),
              getD_set_ne p 16 2 b (by omega), getD_set_ne p 16 3 b (by omega)]
          push_neg
          exact ⟨g0, g1, g2, g3⟩),
        if_pos (Or.inl (by
          rw [show headerSize = 16 from rfl, getD_set_self p 16 b (by omega)]
          rw [g16b] at hb
          exact hb))]
    · refine ⟨"first 2 data bytes do not match !1", ?_⟩
      rw [if_neg (by
          rw [getD_set_ne p 17 0 b (by omega), getD_set_ne p 17 1 b (by omega),
              getD_set_ne p 17 2 b (by omega), getD_set_ne p 17 3 b (by omega)]
          push_neg
          exact ⟨g0, g1, g2, g3⟩),
        if_pos (Or.inr (by
          rw [show headerSize + 1 = 17 from rfl, getD_set_self p 17 b (by omega)]
          rw [g17b] at hb
          exact hb))]
  · intro t2 ht2
    refine ⟨"end of packet did not match expected value", ?_⟩
    unfold eISCPPacket.check
    rw [if_neg (by push_neg; exact ⟨g0, g1, g2, g3⟩),
        if_neg (by push_neg; exact ⟨g16, g17⟩),
        if_neg (by push_neg; exact g7),
        if_neg (by omega),
        dif_pos glt,
        if_pos (by rw [gt]; exact fun e => ht2 e.symm)]

/-- Witness for C4: the encoded PWR01 frame passes the outbound check, fails
it after corrupting magic byte 0, and fails the inbound check. -/
theorem corrupt_frame_fails_check_witness :
    (specFrameLayout [0x50, 0x57, 0x52, 0x30, 0x31]).length = 32 ∧
    (specFrameLayout [0x50, 0x57, 0x52, 0x30, 0x31]).check endOfPacketTx =
      some (Except.ok ()) ∧
    (∃ e, eISCPPacket.check ((specFrameLayout [0x50, 0x57, 0x52, 0x30, 0x31]).set 0 0)
      endOfPacketTx = some (Except.error e)) ∧
    (∃ e, (specFrameLayout [0x50, 0x57, 0x52, 0x30, 0x31]).check endOfPacketRx =
      some (Except.error e)) := by
  have h := corrupt_frame_fails_check (specFrameLayout [0x50, 0x57, 0x52, 0x30, 0x31])
    endOfPacketTx (by decide) (by rfl)
  exact ⟨by decide, by rfl,
    h.1 0 (by decide) 0 (by decide),
    h.2 endOfPacketRx (by decide)⟩

/-- C5 (failing input): `emptyPayloadFrame` is a 32-byte frame that passes
`check` with the inbound terminator, yet `eISCPPacket.message` on it is not
well-defined — the Go code panics slicing `m[3:]` on the empty payload —
contradicting the claim that decode stays in bounds on every checked
frame. -/
theorem checked_frame_decode_panics :
    emptyPayloadFrame.length = 32 ∧
    emptyPayloadFrame.check endOfPacketRx = some (Except.ok ()) ∧
    emptyPayloadFrame.message = none :=
  ⟨rfl, rfl, rfl⟩

/-- C10: on every 32-byte frame, `check` reaches a result (never a Go
panic), because the data-size guard runs before the terminator read keeps
the terminator index between 15 and 31. -/
theorem check_total_in_bounds (p : eISCPPacket) (t : Nat) (hlen : p.length = 32) :
    (∃ r, p.check t = some r) ∧
    (p.getD dataSizeIndex 0 ≤ maxDataSize →
      15 ≤ endOfPacketIndex p ∧ endOfPacketIndex p ≤ 31) := by
  have hhs : headerSize = 16 := rfl
  have hmd : maxDataSize = 16 := rfl
  have hidx : p.getD dataSizeIndex 0 ≤ maxDataSize →
      endOfPacketIndex p = 15 + p.getD dataSizeIndex 0 := by
    intro hv
    unfold endOfPacketIndex
    omega
  constructor
  · unfold eISCPPacket.check
    split_ifs with h1 h2 h3 h4 h5 h6
    · exact ⟨_, rfl⟩
    · exact ⟨_, rfl⟩
    · exact ⟨_, rfl⟩
    · exact ⟨_, rfl⟩
    · exact ⟨_, rfl⟩
    · exact ⟨_, rfl⟩
    · exfalso
      have := hidx (by omega)
      omega
  · intro hv
    rw [hidx hv]
    omega

/-- Witness for C10 at the fresh packet template. -/
theorem check_total_in_bounds_witness :
    newEISCPPacket.length = 32 ∧
    (∃ r, newEISCPPacket.check 0 = some r) ∧
    (15 ≤ endOfPacketIndex newEISCPPacket ∧ endOfPacketIndex newEISCPPacket ≤ 31) :=
  ⟨rfl, (check_total_in_bounds newEISCPPacket 0 rfl).1,
    (check_total_in_bounds newEISCPPacket 0 rfl).2 (by decide)⟩

/-! ## C6: state cache semantics -/

theorem mapGet_mapSet_self (m : StateMap) (k v : List Nat) :
    mapGet (mapSet m k v) k = some v := by
  induction m with
  | nil => simp [mapSet, mapGet]
  | cons kv rest ih =>
    obtain ⟨k2, v2⟩ := kv
    by_cases h : k2 = k
    · simp [mapSet, mapGet, h]
    · simp [mapSet, mapGet, h, ih]

theorem mapGet_mapSet_ne (m : StateMap) (k k2 v : List Nat) (h : k ≠ k2) :
    mapGet (mapSet m k v) k2 = mapGet m k2 := by
  induction m with
  | nil => simp [mapSet, mapGet, h]
  | cons kv rest ih =>
    obtain ⟨ka, va⟩ := kv
    by_cases ha : ka = k
    · subst ha
      have hne : ¬ ka = k2 := h
      simp [mapSet, mapGet, hne]
    · simp [mapSet, mapGet, ha, ih]

theorem stateKeys_nil : stateKeys [] = [] := rfl

theorem stateKeys_cons (kv : List Nat × List Nat) (m : StateMap) :
    stateKeys (kv :: m) = kv.1 :: stateKeys m := rfl

theorem stateKeys_append (a b : StateMap) :
    stateKeys (a ++ b) = stateKeys a ++ stateKeys b := by
  simp [stateKeys]

theorem mapSet_cons_eq (ka va k v : List Nat) (rest : StateMap) (h : ka = k) :
    mapSet ((ka, va) :: rest) k v = (k, v) :: rest := by
  simp [mapSet, h]

theorem mapSet_cons_ne (ka va k v : List Nat) (rest : StateMap) (h : ¬ ka = k) :
    mapSet ((ka, va) :: rest) k v = (ka, va) :: mapSet rest k v := by
  simp [mapSet, h]

theorem mem_stateKeys_mapSet (m : StateMap) (k v x : List Nat)
    (hx : x ∈ stateKeys (mapSet m k v)) : x ∈ stateKeys m ∨ x = k := by
  induction m with
  | nil =>
    right
    simpa [mapSet, stateKeys] using hx
  | cons kv rest ih =>
    obtain ⟨ka, va⟩ := kv
    by_cases ha : ka = k
    · rw [mapSet_cons_eq ka va k v rest ha, stateKeys_cons] at hx
      rcases List.mem_cons.mp hx with rfl | hx2
      · right
        rfl
      · left
        rw [stateKeys_cons]
        exact List.mem_cons_of_mem _ hx2
    · rw [mapSet_cons_ne ka va k v rest ha, stateKeys_cons] at hx
      rcases List.mem_cons.mp hx with rfl | hx2
      · left
        rw [stateKeys_cons]
        exact List.mem_cons_self _ _
      · rcases ih hx2 with h2 | h2
        · left
          rw [stateKeys_cons]
          exact List.mem_cons_of_mem _ h2
        · right
          exact h2

theorem keysNodup_mapSet (m : StateMap) (k v : List Nat)
    (h : (stateKeys m).Nodup) : (stateKeys (mapSet m k v)).Nodup := by
  induction m with
  | nil => simp [mapSet, stateKeys]
  | cons kv rest ih =>
    obtain ⟨ka, va⟩ := kv
    rw [stateKeys_cons, List.nodup_cons] at h
    by_cases ha : ka = k
    · rw [mapSet_cons_eq ka va k v rest ha, stateKeys_cons, List.nodup_cons]
      exact ⟨by rw [← ha]; exact h.1, h.2⟩
    · rw [mapSet_cons_ne ka va k v rest ha, stateKeys_cons, List.nodup_cons]
      refine ⟨fun hmem => ?_, ih h.2⟩
      rcases mem_stateKeys_mapSet rest k v ka hmem with hm | hm
      · exact h.1 hm
      · exact ha hm

theorem keysNodup_runObservations (msgs : List Message) :
    (stateKeys (runObservations msgs)).Nodup := by
  suffices h : ∀ st : StateMap, (stateKeys st).Nodup →
      (stateKeys (msgs.foldl stateObserve st)).Nodup by
    exact h [] (by simp [stateKeys])
  induction msgs with
  | nil => intro st hst; simpa using hst
  | cons m rest ih =>
    intro st hst
    exact ih _ (keysNodup_mapSet st m.Command m.Parameter hst)

theorem mapSet_append_fresh (m : StateMap) (k v : List Nat)
    (h : k ∉ stateKeys m) : mapSet m k v = m ++ [(k, v)] := by
  induction m with
  | nil => rfl
  | cons kv rest ih =>
    obtain ⟨ka, va⟩ := kv
    rw [stateKeys_cons, List.mem_cons] at h
    push_neg at h
    rw [mapSet_cons_ne ka va k v rest (fun e : ka = k => h.1 e.symm), ih h.2,
        List.cons_append]

theorem clientState_eq (m : StateMap) (h : (stateKeys m).Nodup) : clientState m = m := by
  suffices hgen : ∀ (l acc : StateMap), (stateKeys (acc ++ l)).Nodup →
      l.foldl (fun a kv => mapSet a kv.1 kv.2) acc = acc ++ l by
    simpa using hgen m [] (by simpa using h)
  intro l
  induction l with
  | nil =>
    intro acc hacc
    simp
  | cons kv rest ih =>
    obtain ⟨k1, v1⟩ := kv
    intro acc hacc
    rw [stateKeys_append, stateKeys_cons] at hacc
    have hdisj := List.nodup_append.mp hacc
    have hfresh : k1 ∉ stateKeys acc := fun hmem =>
      hdisj.2.2 hmem (List.mem_cons_self _ _)
    rw [List.foldl_cons]
    dsimp only
    rw [mapSet_append_fresh acc k1 v1 hfresh,
        ih (acc ++ [(k1, v1)]) (by
          rw [stateKeys_append, stateKeys_append, List.append_assoc]
          simpa using hacc),
        List.append_assoc]
    rfl

theorem mapGet_foldl_absent (c : List Nat) : ∀ (msgs : List Message) (st : StateMap),
    mapGet st c = none → (∀ m ∈ msgs, m.Command ≠ c) →
    mapGet (msgs.foldl stateObserve st) c = none
  | [], st, hst, _ => hst
  | m :: rest, st, hst, hm => by
    rw [List.foldl_cons]
    exact mapGet_foldl_absent c rest (stateObserve st m)
      (by
        unfold stateObserve
        rw [mapGet_mapSet_ne st m.Command c m.Parameter (hm m (by simp))]
        exact hst)
      (fun m2 hm2 => hm m2 (by simp [hm2]))

/-- C6: the cache is last-write-wins (after observing command `c` with `p1`
and then `p2`, the client-visible state maps `c` to `p2`), commands never
observed are absent, and the snapshot `Client.State` builds agrees pointwise
with the device cache (it is a fresh copy, so in this value model no
operation on it can change the cache). -/
theorem state_cache_semantics (obs : List Message) (c p1 p2 : List Nat) :
    mapGet (clientState (runObservations (obs ++ [⟨c, p1⟩, ⟨c, p2⟩]))) c = some p2
    ∧ (c ∉ obs.map Message.Command →
        mapGet (clientState (runObservations obs)) c = none)
    ∧ (∀ k, mapGet (clientState (runObservations obs)) k =
        mapGet (runObservations obs) k) := by
  have hnd : ∀ msgs : List Message, (stateKeys (runObservations msgs)).Nodup :=
    keysNodup_runObservations
  refine ⟨?_, ?_, ?_⟩
  · rw [clientState_eq _ (hnd _)]
    unfold runObservations
    rw [List.foldl_append]
    simp only [List.foldl_cons, List.foldl_nil]
    unfold stateObserve
    exact mapGet_mapSet_self _ _ _
  · intro hc
    rw [clientState_eq _ (hnd _)]
    refine mapGet_foldl_absent c obs [] rfl ?_
    intro m hm e
    exact hc (e ▸ List.mem_map_of_mem Message.Command hm)
  · intro k
    rw [clientState_eq _ (hnd _)]

/-- Witness for C6: observe MVL=42 then PWR=01 then PWR=02. -/
theorem state_cache_semantics_witness :
    mapGet (clientState (runObservations
      ([⟨[0x4d, 0x56, 0x4c], [0x34, 0x32]⟩] ++
        [⟨[0x50, 0x57, 0x52], [0x30, 0x31]⟩, ⟨[0x50, 0x57, 0x52], [0x30, 0x32]⟩])))
      [0x50, 0x57, 0x52] = some [0x30, 0x32]
    ∧ mapGet (clientState (runObservations [⟨[0x4d, 0x56, 0x4c], [0x34, 0x32]⟩]))
        [0x50, 0x57, 0x52] = none
    ∧ mapGet (clientState (runObservations [⟨[0x4d, 0x56, 0x4c], [0x34, 0x32]⟩]))
        [0x4d, 0x56, 0x4c] =
      mapGet (runObservations [⟨[0x4d, 0x56, 0x4c], [0x34, 0x32]⟩]) [0x4d, 0x56, 0x4c] := by
  have h := state_cache_semantics [⟨[0x4d, 0x56, 0x4c], [0x34, 0x32]⟩]
    [0x50, 0x57, 0x52] [0x30, 0x31] [0x30, 0x32]
  exact ⟨h.1, h.2.1 (by decide), h.2.2 [0x4d, 0x56, 0x4c]⟩

/-! ## C7 - C9: session behaviour -/

theorem contains_eq_true_of_mem (l : List Nat) (c : Nat) (h : c ∈ l) :
    l.contains c = true := by
  induction l with
  | nil => simp at h
  | cons a t ih =>
    rw [List.contains_cons]
    rcases List.mem_cons.mp h with rfl | h2
    · simp
    · rw [ih h2, Bool.or_true]

theorem removeClient_of_mem (st : BState) (c : Nat) (explicitRemove : Bool)
    (h : c ∈ st.live) :
    removeClient st c explicitRemove =
      { live := st.live.filter (fun x => x != c),
        closedChans := st.closedChans ++ [c],
        delivered := st.delivered } := by
  unfold removeClient
  rw [if_pos (contains_eq_true_of_mem st.live c h)]

/-- Behaviour of one broadcast pass over the clients still to visit. -/
theorem broadcastMessage_spec (ready : Nat → Bool) (msg : Message) :
    ∀ (rest : List Nat) (st : BState), rest.Nodup → (∀ c ∈ rest, c ∈ st.live) →
    (broadcastMessage ready msg rest st).live =
        st.live.filter (fun x => !rest.contains x || ready x)
    ∧ (broadcastMessage ready msg rest st).closedChans =
        st.closedChans ++ rest.filter (fun c => !ready c)
    ∧ (broadcastMessage ready msg rest st).delivered =
        st.delivered ++ (rest.filter ready).map (fun c => (c, msg))
  | [], st, _, _ => by
    refine ⟨?_, by simp [broadcastMessage], by simp [broadcastMessage]⟩
    simp only [broadcastMessage]
    exact (List.filter_eq_self.mpr (fun x hx => by simp)).symm
  | c :: rest, st, hnd, hmem => by
    rw [List.nodup_cons] at hnd
    by_cases hrc : ready c = true
    · have hres := broadcastMessage_spec ready msg rest
        { st with delivered := st.delivered ++ [(c, msg)] }
        hnd.2 (fun x hx => hmem x (List.mem_cons_of_mem c hx))
      have hstep : broadcastMessage ready msg (c :: rest) st =
          broadcastMessage ready msg rest
            { st with delivered := st.delivered ++ [(c, msg)] } := by
        simp only [broadcastMessage]
        rw [if_pos hrc]
      rw [hstep]
      refine ⟨?_, ?_, ?_⟩
      · rw [hres.1]
        refine List.filter_congr (fun x hx => ?_)
        by_cases hxc : x = c
        · subst hxc
          simp [List.contains_cons, hrc]
        · simp [List.contains_cons, hxc]
      · rw [hres.2.1, List.filter_cons_of_neg (by simp [hrc])]
      · rw [hres.2.2, List.filter_cons_of_pos hrc]
        simp
    · have hcl : c ∈ st.live := hmem c (List.mem_cons_self c rest)
      have hrm := removeClient_of_mem st c false hcl
      have hres := broadcastMessage_spec ready msg rest (removeClient st c false)
        hnd.2 (fun x hx => by
          rw [hrm]
          simp only [List.mem_filter]
          refine ⟨hmem x (List.mem_cons_of_mem c hx), ?_⟩
          have hxc : x ≠ c := fun e => hnd.1 (e ▸ hx)
          simp [hxc])
      have hstep : broadcastMessage ready msg (c :: rest) st =
          broadcastMessage ready msg rest (removeClient st c false) := by
        simp only [broadcastMessage]
        rw [if_neg hrc]
      rw [hstep]
      refine ⟨?_, ?_, ?_⟩
      · rw [hres.1, hrm]
        dsimp only
        rw [List.filter_filter]
        refine List.filter_congr (fun x hx => ?_)
        by_cases hxc : x = c
        · subst hxc
          simp [List.contains_cons, hrc]
        · simp [List.contains_cons, hxc]
      · rw [hres.2.1, hrm]
        dsimp only
        rw [List.filter_cons_of_pos (by simp [hrc]), List.append_assoc]
        rfl
      · rw [hres.2.2, hrm, List.filter_cons_of_neg (by simp [hrc])]

theorem mem_of_contains_eq_true (l : List Nat) (c : Nat) (h : l.contains c = true) :
    c ∈ l := by
  induction l with
  | nil => simp [List.contains] at h
  | cons a t ih =>
    rw [List.contains_cons] at h
    rcases (Bool.or_eq_true _ _).mp h with h1 | h2
    · exact (eq_of_beq h1) ▸ List.mem_cons_self a t
    · exact List.mem_cons_of_mem a (ih h2)

theorem contains_eq_false_of_not_mem (l : List Nat) (c : Nat) (h : c ∉ l) :
    l.contains c = false := by
  cases hc : l.contains c
  · rfl
  · exact absurd (mem_of_contains_eq_true l c hc) h

/-- Removing the same client twice is a no-op the second time, whichever
combination of the explicit/implicit paths is taken: the client is deleted
once and its channel closed once. -/
theorem removeClient_idem (st : BState) (c : Nat) (e1 e2 : Bool) :
    removeClient (removeClient st c e1) c e2 = removeClient st c e1 := by
  by_cases h : st.live.contains c = true
  · unfold removeClient
    rw [if_pos h]
    rw [if_neg (by
      rw [contains_eq_false_of_not_mem]
      · simp
      · intro hmem
        have := List.mem_filter.mp hmem
        simp at this)]
  · unfold removeClient
    rw [if_neg h, if_neg h]

/-- C7: broadcasting a message over the live set delivers it to every client
that is ready to receive and leaves those clients attached, while every
client whose delivery would block is removed from the live set and has its
channel closed, after which its `Receive` returns the closed error. -/
theorem broadcast_drops_blocked_clients (L : List Nat) (ready : Nat → Bool) (msg : Message)
    (hnd : L.Nodup) :
    (broadcastMessage ready msg L ⟨L, [], []⟩).live = L.filter ready
    ∧ (broadcastMessage ready msg L ⟨L, [], []⟩).closedChans =
        L.filter (fun c => !ready c)
    ∧ (broadcastMessage ready msg L ⟨L, [], []⟩).delivered =
        (L.filter ready).map (fun c => (c, msg))
    ∧ (∀ c ∈ L, ready c = false → ∀ m,
        clientReceive ((broadcastMessage ready msg L ⟨L, [], []⟩).closedChans.contains c) m =
          Except.error "channel closed")
    ∧ (∀ c ∈ L, ready c = true →
        c ∈ (broadcastMessage ready msg L ⟨L, [], []⟩).live ∧
        (c, msg) ∈ (broadcastMessage ready msg L ⟨L, [], []⟩).delivered) := by
  have hspec := broadcastMessage_spec ready msg L ⟨L, [], []⟩ hnd (fun c hc => hc)
  have hlive : (broadcastMessage ready msg L ⟨L, [], []⟩).live = L.filter ready := by
    rw [hspec.1]
    exact List.filter_congr (fun x hx => by
      rw [contains_eq_true_of_mem L x hx]
      simp)
  have hclosed : (broadcastMessage ready msg L ⟨L, [], []⟩).closedChans =
      L.filter (fun c => !ready c) := by
    rw [hspec.2.1]
    simp
  have hdel : (broadcastMessage ready msg L ⟨L, [], []⟩).delivered =
      (L.filter ready).map (fun c => (c, msg)) := by
    rw [hspec.2.2]
    simp
  refine ⟨hlive, hclosed, hdel, ?_, ?_⟩
  · intro c hc hrc m
    have hmem : c ∈ (broadcastMessage ready msg L ⟨L, [], []⟩).closedChans := by
      rw [hclosed]
      exact List.mem_filter.mpr ⟨hc, by simp [hrc]⟩
    rw [contains_eq_true_of_mem _ c hmem]
    rfl
  · intro c hc hrc
    refine ⟨?_, ?_⟩
    · rw [hlive]
      exact List.mem_filter.mpr ⟨hc, hrc⟩
    · rw [hdel]
      exact List.mem_map_of_mem _ (List.mem_filter.mpr ⟨hc, hrc⟩)

/-- Witness for C7: three clients, client 2 not ready. -/
theorem broadcast_drops_blocked_clients_witness :
    (broadcastMessage (fun c => c != 2) ⟨[0x50, 0x57, 0x52], [0x30, 0x31]⟩ [1, 2, 3]
      ⟨[1, 2, 3], [], []⟩).live = [1, 3]
    ∧ (broadcastMessage (fun c => c != 2) ⟨[0x50, 0x57, 0x52], [0x30, 0x31]⟩ [1, 2, 3]
        ⟨[1, 2, 3], [], []⟩).closedChans = [2]
    ∧ (broadcastMessage (fun c => c != 2) ⟨[0x50, 0x57, 0x52], [0x30, 0x31]⟩ [1, 2, 3]
        ⟨[1, 2, 3], [], []⟩).delivered =
        [(1, ⟨[0x50, 0x57, 0x52], [0x30, 0x31]⟩), (3, ⟨[0x50, 0x57, 0x52], [0x30, 0x31]⟩)]
    ∧ clientReceive ((broadcastMessage (fun c => c != 2) ⟨[0x50, 0x57, 0x52], [0x30, 0x31]⟩
        [1, 2, 3] ⟨[1, 2, 3], [], []⟩).closedChans.contains 2)
        ⟨[0x50, 0x57, 0x52], [0x30, 0x31]⟩ = Except.error "channel closed" := by
  have h := broadcast_drops_blocked_clients [1, 2, 3] (fun c => c != 2)
    ⟨[0x50, 0x57, 0x52], [0x30, 0x31]⟩ (by decide)
  exact ⟨h.1.trans rfl, h.2.1.trans rfl, h.2.2.1.trans rfl,
    h.2.2.2.1 2 (by decide) (by decide) ⟨[0x50, 0x57, 0x52], [0x30, 0x31]⟩⟩

/-- C8 (code behaviour at the failing input): closing a client twice is a
no-op the second time and the channel is closed exactly once, a closed
client's `Receive` fails deterministically with the closed-channel error,
but the closed client's `Send` still succeeds — the session's send handler
never consults the live client set, so a closed client can still send. -/
theorem close_idempotent_but_send_succeeds :
    clientClose (clientClose ⟨[7], [], []⟩ 7) 7 = clientClose ⟨[7], [], []⟩ 7
    ∧ (clientClose ⟨[7], [], []⟩ 7).closedChans = [7]
    ∧ clientReceive true ⟨[0x50, 0x57, 0x52], [0x30, 0x31]⟩ =
        Except.error "channel closed"
    ∧ handleSend (clientClose ⟨[7], [], []⟩ 7) 7 ⟨[0x50, 0x57, 0x52], [0x30, 0x31]⟩ =
        Except.ok () :=
  ⟨removeClient_idem ⟨[7], [], []⟩ 7 true true, rfl, rfl, rfl⟩

/-- C9: a clean end-of-stream on the device connection is fatal to the whole
session — the process terminates in a single step, no client stays live and
every previously live client's inbound channel is gone, with no partial
shutdown and no further cache updates. -/
theorem eof_is_fatal_shutdown (ready : Nat → Bool) (st : SessionState) :
    (receiveLoopStep ready st ReadResult.eof).terminated = true
    ∧ (receiveLoopStep ready st ReadResult.eof).bstate.live = []
    ∧ (receiveLoopStep ready st ReadResult.eof).bstate.closedChans =
        st.bstate.closedChans ++ st.bstate.live
    ∧ (receiveLoopStep ready st ReadResult.eof).cache = st.cache :=
  ⟨rfl, rfl, rfl, rfl⟩
